/-
Verification of the Urban Tank Warfare authoritative game server
(`src/unnamed/part_003`, with shared constants from `src/src/shared/constants.js`
and the client `NetworkManager` from `src/public/js/camera.js`).

The server's canonical state (`gameState`) is embedded shallowly:
JavaScript objects keyed by string ids become association lists in
insertion order (JS `for...in` iterates own string keys in insertion
order; assignment to an existing key keeps its place, assignment to a
fresh key appends, `delete` removes).  Timestamps (`Date.now()`) are
integers of milliseconds; world coordinates and directions are rationals
(the JS arithmetic involved is exact on the rationals).  Randomness
(`Math.random()`) is modelled by explicit streams of rational draws in
[0,1).  Socket.io emissions are recorded as a list of `Emit` values
tagged with their delivery scope (`io.emit` = all sockets,
`socket.emit` = one socket, `socket.broadcast.emit` = all but one).
The broadcast emissions produced inside the tick
(`PLAYER_HIT`/`PLAYER_RESPAWN`/`GAME_STATE`) are not modelled; no
theorem below refers to them.
-/
import Mathlib

namespace TankGame

/- The arithmetic of `ℚ` is used to evaluate concrete states in the
witnesses below; the batteries definitions are irreducible by default,
which blocks kernel evaluation. -/
attribute [local semireducible] Rat.add Rat.sub Rat.mul Rat.inv

set_option maxRecDepth 40000

/-! ### Shared constants (`src/src/shared/constants.js`) -/

def TANK_HEALTH : Int := 100
def BULLET_DAMAGE : Int := 20
def RELOAD_TIME : Int := 1000
def RESPAWN_TIME : Int := 5000
def BULLET_SPEED : ℚ := 20
def BULLET_LIFETIME : Int := 3000
def MAP_SIZE : ℚ := 200

/-! ### Data model (`src/unnamed/part_003`) -/

structure Vec3 where
  x : ℚ
  y : ℚ
  z : ℚ
deriving DecidableEq, Repr

/-- A player record, as built by `addPlayer`.  The JS `rotation` and
`turretRotation` objects `{ y }` are represented by their yaw values. -/
structure Player where
  id : String
  position : Vec3
  rotationY : ℚ
  turretRotationY : ℚ
  health : Int
  score : Int
  lastShotTime : Int
  respawnTime : Int
  isAlive : Bool
deriving DecidableEq, Repr

structure Bullet where
  id : String
  playerId : String
  position : Vec3
  direction : Vec3
  createdAt : Int
  damage : Int
deriving DecidableEq, Repr

/-- The canonical server state `gameState` (`powerups` is always empty and
`gameStatus` constant in the source; they are omitted). -/
structure GameState where
  players : List (String × Player)
  bullets : List (String × Bullet)
  lastUpdateTime : Int
deriving DecidableEq, Repr

/-! ### JS-object operations on association lists -/

/-- Property read `obj[k]` (`undefined` becomes `none`). -/
def jsGet (k : String) : List (String × α) → Option α
  | [] => none
  | (k', v) :: rest => if k' = k then some v else jsGet k rest

/-- Assignment `obj[k] = v`: overwrite in place if the key exists,
append otherwise. -/
def jsSet (k : String) (v : α) : List (String × α) → List (String × α)
  | [] => [(k, v)]
  | (k', v') :: rest =>
    if k' = k then (k', v) :: rest else (k', v') :: jsSet k v rest

/-- `delete obj[k]`. -/
def jsDel (k : String) : List (String × α) → List (String × α)
  | [] => []
  | (k', v') :: rest => if k' = k then rest else (k', v') :: jsDel k rest

/-! ### Spawn-position resolution (`getRandomSpawnPosition`) -/

/-- One `Math.random()`-derived candidate:
`{ x: r.1*mapSize - halfMapSize, y: 1, z: r.2*mapSize - halfMapSize }`. -/
def candidate (r : ℚ × ℚ) : Vec3 :=
  ⟨r.1 * MAP_SIZE - MAP_SIZE / 2, 1, r.2 * MAP_SIZE - MAP_SIZE / 2⟩

/-- `isFarEnough`: no existing player within squared distance 400 on x/z. -/
def isFarEnough (pos : Vec3) (players : List (String × Player)) : Prop :=
  ∀ kp ∈ players,
    ¬((kp.2.position.x - pos.x) * (kp.2.position.x - pos.x) +
      (kp.2.position.z - pos.z) * (kp.2.position.z - pos.z) < 400)

instance (pos : Vec3) (players : List (String × Player)) :
    Decidable (isFarEnough pos players) := by
  unfold isFarEnough; infer_instance

/-- The bounded retry loop of `getRandomSpawnPosition`: attempt `i` draws
`rands i`; after the fuel (10 attempts) is spent, the unchecked fallback
draws one more random position. -/
def spawnGo (rands : ℕ → ℚ × ℚ) (players : List (String × Player)) :
    ℕ → ℕ → Vec3
  | i, 0 => candidate (rands i)
  | i, fuel + 1 =>
    let pos := candidate (rands i)
    if |pos.x| < 20 ∧ |pos.z| < 20 then spawnGo rands players (i + 1) fuel
    else if isFarEnough pos players then pos
    else spawnGo rands players (i + 1) fuel

def getRandomSpawnPosition (rands : ℕ → ℚ × ℚ)
    (players : List (String × Player)) : Vec3 :=
  spawnGo rands players 0 10

/-! ### Player creation (`addPlayer`) -/

def addPlayer (playerId : String) (rands : ℕ → ℚ × ℚ) (s : GameState) :
    Player × GameState :=
  let position := getRandomSpawnPosition rands s.players
  let p : Player :=
    { id := playerId
      position := position
      rotationY := 0
      turretRotationY := 0
      health := TANK_HEALTH
      score := 0
      lastShotTime := 0
      respawnTime := 0
      isAlive := true }
  (p, { s with players := jsSet playerId p s.players })

/-! ### Wire messages emitted by the server -/

inductive Scope where
  | all
  | toSocket (sid : String)
  | broadcastExcept (sid : String)
deriving DecidableEq, Repr

/-- Whether a message with the given scope is delivered to connection `c`
(assuming `c` is connected). -/
def Scope.deliveredTo : Scope → String → Bool
  | .all, _ => true
  | .toSocket s, c => s == c
  | .broadcastExcept s, c => !(s == c)

inductive Message where
  | playerJoined (p : Player)
  | playerLeft (id : String)
  | playerMoved (id : String) (position : Vec3) (rotationY turretRotationY : ℚ)
  | playerShot (id bulletId : String) (position direction : Vec3)
  | gameStateMsg (players : List (String × Player))
      (bullets : List (String × Bullet))
deriving DecidableEq, Repr

structure Emit where
  scope : Scope
  msg : Message
deriving DecidableEq, Repr

/-! ### Firing (`handlePlayerShot`) -/

/-- The `PLAYER_SHOT` payload.  The handler destructures only `position`
and `direction`; `embeddedId` stands for any player-identity field a
client might smuggle into the payload — the code never reads it. -/
structure ShotData where
  position : Vec3
  direction : Vec3
  embeddedId : Option String
deriving DecidableEq, Repr

def mkBulletId (playerId : String) (now : Int) : String :=
  "bullet_" ++ playerId ++ "_" ++ toString now

def handlePlayerShot (playerId : String) (now : Int) (data : ShotData)
    (s : GameState) : GameState × List Emit :=
  match jsGet playerId s.players with
  | none => (s, [])
  | some player =>
    if player.isAlive = false then (s, [])
    else if now - player.lastShotTime < RELOAD_TIME then (s, [])
    else
      let player' := { player with lastShotTime := now }
      let bulletId := mkBulletId playerId now
      let b : Bullet :=
        { id := bulletId
          playerId := playerId
          position := data.position
          direction := data.direction
          createdAt := now
          damage := BULLET_DAMAGE }
      ({ s with
          players := jsSet playerId player' s.players
          bullets := jsSet bulletId b s.bullets },
       [⟨.all, .playerShot playerId bulletId data.position data.direction⟩])

/-! ### Movement (`io.on PLAYER_MOVED` handler) -/

/-- The `PLAYER_MOVED` payload; as for `ShotData`, `embeddedId` stands
for any identity field in the payload, which the handler never reads. -/
structure MoveData where
  position : Vec3
  rotationY : ℚ
  turretRotationY : ℚ
  embeddedId : Option String
deriving DecidableEq, Repr

def handlePlayerMoved (sid : String) (data : MoveData) (s : GameState) :
    GameState × List Emit :=
  match jsGet sid s.players with
  | none => (s, [])
  | some player =>
    if player.isAlive then
      let player' := { player with
        position := data.position
        rotationY := data.rotationY
        turretRotationY := data.turretRotationY }
      ({ s with players := jsSet sid player' s.players },
       [⟨.broadcastExcept sid,
         .playerMoved sid data.position data.rotationY data.turretRotationY⟩])
    else (s, [])

/-! ### Connection and disconnection handlers -/

def connectionHandler (sid : String) (rands : ℕ → ℚ × ℚ) (s : GameState) :
    GameState × List Emit :=
  let (p, s') := addPlayer sid rands s
  (s', [⟨.all, .playerJoined p⟩,
        ⟨.toSocket sid, .gameStateMsg s'.players s'.bullets⟩])

def disconnectHandler (sid : String) (s : GameState) :
    GameState × List Emit :=
  ({ s with players := jsDel sid s.players }, [⟨.all, .playerLeft sid⟩])

/-! ### The simulation tick (`updateGameState`) -/

/-- Bullet advance: `position.x += direction.x * BULLET_SPEED * deltaTime`
and likewise for `z`; `y` is not touched. -/
def moveBullet (dt : ℚ) (b : Bullet) : Bullet :=
  { b with position :=
      { b.position with
        x := b.position.x + b.direction.x * BULLET_SPEED * dt
        z := b.position.z + b.direction.z * BULLET_SPEED * dt } }

/-- The collision test of the inner player loop, on the bullet's moved
position: squared x/z distance below 25. -/
def hitDist (b : Bullet) (p : Player) : Prop :=
  (p.position.x - b.position.x) * (p.position.x - b.position.x) +
    (p.position.z - b.position.z) * (p.position.z - b.position.z) < 25

instance (b : Bullet) (p : Player) : Decidable (hitDist b p) := by
  unfold hitDist; infer_instance

/-- A player entry collides with bullet `b` if it is not the shooter,
is alive, and passes the distance test. -/
def hitMatch (b : Bullet) (pid : String) (p : Player) : Prop :=
  pid ≠ b.playerId ∧ p.isAlive = true ∧ hitDist b p

instance (b : Bullet) (pid : String) (p : Player) :
    Decidable (hitMatch b pid p) := by
  unfold hitMatch; infer_instance

/-- The inner `for (const playerId in gameState.players)` loop: first
matching player in insertion order, if any. -/
def findHit (b : Bullet) : List (String × Player) → Option (String × Player)
  | [] => none
  | (pid, p) :: rest =>
    if hitMatch b pid p then some (pid, p) else findHit b rest

/-- Effect of a registered hit: subtract the damage; on death clamp
health to 0, clear `isAlive`, schedule the respawn and credit the
shooter if still known. -/
def applyHit (now : Int) (b : Bullet) (pid : String) (p : Player)
    (players : List (String × Player)) : List (String × Player) :=
  let newHealth := p.health - b.damage
  if newHealth ≤ 0 then
    let players' := jsSet pid
      { p with
        health := 0
        isAlive := false
        respawnTime := now + RESPAWN_TIME } players
    match jsGet b.playerId players' with
    | some shooter =>
        jsSet b.playerId { shooter with score := shooter.score + 1 } players'
    | none => players'
  else
    jsSet pid { p with health := newHealth } players

/-- Processing of one bullet within the tick: lifetime expiry removes it;
otherwise it moves and either hits the first matching player (and is
removed) or survives. -/
def bulletStep (now : Int) (dt : ℚ) (b : Bullet)
    (players : List (String × Player)) :
    List (String × Player) × Option Bullet :=
  if BULLET_LIFETIME < now - b.createdAt then (players, none)
  else
    let b' := moveBullet dt b
    match findHit b' players with
    | none => (players, some b')
    | some (pid, p) => (applyHit now b' pid p players, none)

/-- The outer `for (const bulletId in gameState.bullets)` loop, threading
the player map and keeping the surviving bullets in order. -/
def processBullets (now : Int) (dt : ℚ) (players : List (String × Player)) :
    List (String × Bullet) →
      List (String × Player) × List (String × Bullet)
  | [] => (players, [])
  | (bid, b) :: rest =>
    match bulletStep now dt b players with
    | (players', none) => processBullets now dt players' rest
    | (players', some b') =>
      let res := processBullets now dt players' rest
      (res.1, (bid, b') :: res.2)

/-- One iteration of the respawn loop for key `pid`.  The source sets
`isAlive` and `health` first and only then resolves the spawn position,
so the distance check of `getRandomSpawnPosition` sees the updated map
(including the respawning player at its old position). -/
def respawnStep (now : Int) (rands : ℕ → ℚ × ℚ) (pid : String)
    (players : List (String × Player)) : List (String × Player) :=
  match jsGet pid players with
  | none => players
  | some p =>
    if p.isAlive = false ∧ p.respawnTime ≤ now then
      let p1 := { p with isAlive := true, health := TANK_HEALTH }
      let players1 := jsSet pid p1 players
      jsSet pid { p1 with position := getRandomSpawnPosition rands players1 }
        players1
    else players

/-- The respawn scan over the (fixed) key list; the `k`-th processed key
consumes the spawn stream `rands k`. -/
def processRespawnsGo (now : Int) (rands : ℕ → ℕ → ℚ × ℚ) :
    ℕ → List String → List (String × Player) → List (String × Player)
  | _, [], players => players
  | k, pid :: rest, players =>
    processRespawnsGo now rands (k + 1) rest
      (respawnStep now (rands k) pid players)

def processRespawns (now : Int) (rands : ℕ → ℕ → ℚ × ℚ)
    (players : List (String × Player)) : List (String × Player) :=
  processRespawnsGo now rands 0 (players.map Prod.fst) players

/-- `updateGameState`: compute `deltaTime` in seconds, run the bullet
loop, then the respawn scan. -/
def updateGameState (now : Int) (rands : ℕ → ℕ → ℚ × ℚ) (s : GameState) :
    GameState :=
  let dt : ℚ := ((now - s.lastUpdateTime : Int) : ℚ) / 1000
  let res := processBullets now dt s.players s.bullets
  { players := processRespawns now rands res.1
    bullets := res.2
    lastUpdateTime := now }

/-! ### Reachability: the state machine's operations -/

inductive Step : GameState → GameState → Prop where
  | connect (sid : String) (rands : ℕ → ℚ × ℚ) (s : GameState) :
      Step s (connectionHandler sid rands s).1
  | move (sid : String) (data : MoveData) (s : GameState) :
      Step s (handlePlayerMoved sid data s).1
  | shot (sid : String) (now : Int) (data : ShotData) (s : GameState) :
      Step s (handlePlayerShot sid now data s).1
  | tick (now : Int) (rands : ℕ → ℕ → ℚ × ℚ) (s : GameState) :
      Step s (updateGameState now rands s)
  | disconnect (sid : String) (s : GameState) :
      Step s (disconnectHandler sid s).1

/-- Reachable canonical states: the server starts with empty player and
bullet maps (at an arbitrary start time) and evolves by the five
state-machine operations. -/
inductive Reachable : GameState → Prop where
  | init (t0 : Int) : Reachable ⟨[], [], t0⟩
  | step {s s' : GameState} : Reachable s → Step s s' → Reachable s'


/-! ### Lemmas about the JS-object operations -/

theorem jsGet_jsSet_self (k : String) (v : α) (l : List (String × α)) :
    jsGet k (jsSet k v l) = some v := by
  induction l with
  | nil => simp [jsGet, jsSet]
  | cons hd tl ih =>
    obtain ⟨k', v'⟩ := hd
    by_cases h : k' = k <;> simp [jsGet, jsSet, h, ih]

theorem jsGet_jsSet_ne (k k' : String) (h : k ≠ k') (v : α)
    (l : List (String × α)) : jsGet k (jsSet k' v l) = jsGet k l := by
  induction l with
  | nil => simp [jsGet, jsSet, Ne.symm h]
  | cons hd tl ih =>
    obtain ⟨k'', v''⟩ := hd
    by_cases h1 : k'' = k'
    · subst h1
      simp [jsGet, jsSet, Ne.symm h]
    · by_cases h2 : k'' = k <;> simp [jsGet, jsSet, h, h1, h2, ih]

theorem mem_jsSet (k : String) (v : α) (l : List (String × α)) :
    ∀ x ∈ jsSet k v l, x = (k, v) ∨ x ∈ l := by
  induction l with
  | nil => simp [jsSet]
  | cons hd tl ih =>
    obtain ⟨k', v'⟩ := hd
    intro x hx
    by_cases h1 : k' = k
    · simp only [jsSet, if_pos h1] at hx
      rcases List.mem_cons.mp hx with hx | hx
      · exact Or.inl (by simp [hx, h1])
      · exact Or.inr (List.mem_cons_of_mem _ hx)
    · simp only [jsSet, if_neg h1] at hx
      rcases List.mem_cons.mp hx with hx | hx
      · exact Or.inr (by simp [hx])
      · rcases ih x hx with hx' | hx'
        · exact Or.inl hx'
        · exact Or.inr (List.mem_cons_of_mem _ hx')

theorem jsSet_eq_append (k : String) (v : α) (l : List (String × α))
    (h : jsGet k l = none) : jsSet k v l = l ++ [(k, v)] := by
  induction l with
  | nil => simp [jsSet]
  | cons hd tl ih =>
    obtain ⟨k', v'⟩ := hd
    by_cases h1 : k' = k
    · simp [jsGet, h1] at h
    · simp only [jsGet, if_neg h1] at h
      simp [jsSet, h1, ih h]

theorem map_fst_jsSet_of_get_some (k : String) (v w : α)
    (l : List (String × α)) (h : jsGet k l = some w) :
    (jsSet k v l).map Prod.fst = l.map Prod.fst := by
  induction l with
  | nil => simp [jsGet] at h
  | cons hd tl ih =>
    obtain ⟨k', v'⟩ := hd
    by_cases h1 : k' = k
    · simp [jsSet, h1]
    · simp only [jsGet, if_neg h1] at h
      simp [jsSet, h1, ih h]

theorem jsGet_eq_none_iff (k : String) (l : List (String × α)) :
    jsGet k l = none ↔ k ∉ l.map Prod.fst := by
  induction l with
  | nil => simp [jsGet]
  | cons hd tl ih =>
    obtain ⟨k', v'⟩ := hd
    by_cases h1 : k' = k
    · simp [jsGet, h1]
    · simp [jsGet, h1, ih, Ne.symm h1]

theorem jsGet_mem (k : String) (v : α) (l : List (String × α))
    (h : jsGet k l = some v) : (k, v) ∈ l := by
  induction l with
  | nil => simp [jsGet] at h
  | cons hd tl ih =>
    obtain ⟨k', v'⟩ := hd
    by_cases h1 : k' = k
    · simp only [jsGet, if_pos h1] at h
      obtain rfl : v' = v := by injection h
      simp [h1]
    · simp only [jsGet, if_neg h1] at h
      exact List.mem_cons_of_mem _ (ih h)

theorem mem_jsDel (k : String) (l : List (String × α)) :
    ∀ x ∈ jsDel k l, x ∈ l := by
  induction l with
  | nil => simp [jsDel]
  | cons hd tl ih =>
    obtain ⟨k', v'⟩ := hd
    intro x hx
    by_cases h1 : k' = k
    · simp only [jsDel, if_pos h1] at hx
      exact List.mem_cons_of_mem _ hx
    · simp only [jsDel, if_neg h1] at hx
      rcases List.mem_cons.mp hx with hx | hx
      · exact List.mem_cons.mpr (Or.inl hx)
      · exact List.mem_cons_of_mem _ (ih x hx)

theorem nodup_map_fst_jsSet (k : String) (v : α) (l : List (String × α))
    (h : (l.map Prod.fst).Nodup) : ((jsSet k v l).map Prod.fst).Nodup := by
  cases hg : jsGet k l with
  | none =>
    rw [jsSet_eq_append k v l hg]
    have hk : k ∉ l.map Prod.fst := (jsGet_eq_none_iff k l).mp hg
    simp only [List.map_append, List.map_cons, List.map_nil,
      List.nodup_append]
    exact ⟨h, List.nodup_singleton k,
      by intro a ha hb; simp at hb; subst hb; exact hk ha⟩
  | some w => rw [map_fst_jsSet_of_get_some k v w l hg]; exact h

theorem jsDel_sublist (k : String) (l : List (String × α)) :
    List.Sublist (jsDel k l) l := by
  induction l with
  | nil => simp [jsDel]
  | cons hd tl ih =>
    obtain ⟨k', v'⟩ := hd
    by_cases h1 : k' = k
    · simp only [jsDel, if_pos h1]
      exact List.sublist_cons_self _ _
    · simp only [jsDel, if_neg h1]
      exact ih.cons₂ (k', v')

theorem nodup_map_fst_jsDel (k : String) (l : List (String × α))
    (h : (l.map Prod.fst).Nodup) :
    ((jsDel k l).map Prod.fst).Nodup :=
  h.sublist ((jsDel_sublist k l).map Prod.fst)

/-! ### Canonical-state invariants -/

/-- Per-player invariant: bounded health, `isAlive` tied to zero health,
and health a multiple of the (only) bullet damage — the last conjunct is
what keeps the damage subtraction exact. -/
def PlayerInv (p : Player) : Prop :=
  0 ≤ p.health ∧ p.health ≤ TANK_HEALTH ∧
    (p.isAlive = false ↔ p.health = 0) ∧ p.health % BULLET_DAMAGE = 0

instance (p : Player) : Decidable (PlayerInv p) := by
  unfold PlayerInv; infer_instance

def PlayersInv (l : List (String × Player)) : Prop :=
  ∀ kp ∈ l, PlayerInv kp.2

instance (l : List (String × Player)) : Decidable (PlayersInv l) := by
  unfold PlayersInv; infer_instance

def BulletsInv (l : List (String × Bullet)) : Prop :=
  ∀ kb ∈ l, kb.2.damage = BULLET_DAMAGE

instance (l : List (String × Bullet)) : Decidable (BulletsInv l) := by
  unfold BulletsInv; infer_instance

def StateInv (s : GameState) : Prop :=
  PlayersInv s.players ∧ BulletsInv s.bullets ∧
    (s.players.map Prod.fst).Nodup

instance (s : GameState) : Decidable (StateInv s) := by
  unfold StateInv; infer_instance

theorem findHit_spec (b : Bullet) :
    ∀ l : List (String × Player), ∀ pid p, findHit b l = some (pid, p) →
      (pid, p) ∈ l ∧ hitMatch b pid p := by
  intro l
  induction l with
  | nil => intro pid p h; simp [findHit] at h
  | cons hd tl ih =>
    intro pid p h
    obtain ⟨k', p'⟩ := hd
    by_cases h1 : hitMatch b k' p'
    · simp only [findHit, if_pos h1] at h
      obtain ⟨rfl, rfl⟩ : k' = pid ∧ p' = p := by
        constructor <;> injection h with h2 <;> injection h2
      exact ⟨List.mem_cons_self _ _, h1⟩
    · simp only [findHit, if_neg h1] at h
      obtain ⟨hm, hmatch⟩ := ih pid p h
      exact ⟨List.mem_cons_of_mem _ hm, hmatch⟩

theorem applyHit_inv (now : Int) (b : Bullet) (pid : String) (p : Player)
    (players : List (String × Player)) (hpl : PlayersInv players)
    (hp : PlayerInv p) (ha : p.isAlive = true)
    (hd : b.damage = BULLET_DAMAGE) :
    PlayersInv (applyHit now b pid p players) := by
  have hdead : PlayerInv
      { p with health := 0, isAlive := false,
               respawnTime := now + RESPAWN_TIME } := by
    simp [PlayerInv, TANK_HEALTH, BULLET_DAMAGE]
  intro kp hkp
  unfold applyHit at hkp
  simp only [] at hkp
  split at hkp
  · -- lethal branch
    split at hkp
    next shooter hg =>
      rcases mem_jsSet _ _ _ _ hkp with rfl | hkp2
      · -- the shooter, score incremented
        have hsm := jsGet_mem _ _ _ hg
        rcases mem_jsSet _ _ _ _ hsm with heq | hmem
        · obtain rfl : shooter = _ := congrArg Prod.snd heq
          simp [PlayerInv, TANK_HEALTH, BULLET_DAMAGE]
        · have := hpl _ hmem
          simpa [PlayerInv] using this
      · rcases mem_jsSet _ _ _ _ hkp2 with rfl | hkp3
        · exact hdead
        · exact hpl _ hkp3
    next hg =>
      rcases mem_jsSet _ _ _ _ hkp with rfl | hkp2
      · exact hdead
      · exact hpl _ hkp2
  · -- non-lethal branch
    next hle =>
    rcases mem_jsSet _ _ _ _ hkp with rfl | hkp2
    · obtain ⟨hp0, hp1, hp2, hp3⟩ := hp
      have hne : p.health ≠ 0 := fun h0 => by
        rw [ha] at hp2; exact absurd (hp2.mpr h0) (by simp)
      refine ⟨?_, ?_, ?_, ?_⟩ <;>
        simp only [PlayerInv, TANK_HEALTH, BULLET_DAMAGE, ha] at *
      · omega
      · omega
      · constructor
        · intro hcon; exact absurd hcon (by simp)
        · intro h0; omega
      · omega
    · exact hpl _ hkp2

theorem map_fst_applyHit (now : Int) (b : Bullet) (pid : String) (p : Player)
    (players : List (String × Player)) (hmem : pid ∈ players.map Prod.fst) :
    (applyHit now b pid p players).map Prod.fst = players.map Prod.fst := by
  obtain ⟨w, hw⟩ : ∃ w, jsGet pid players = some w := by
    cases hg : jsGet pid players with
    | none => exact absurd hmem ((jsGet_eq_none_iff _ _).mp hg)
    | some w => exact ⟨w, rfl⟩
  unfold applyHit
  simp only []
  split
  · split
    next shooter hg =>
      rw [map_fst_jsSet_of_get_some _ _ _ _ hg,
        map_fst_jsSet_of_get_some _ _ _ _ hw]
    next hg => rw [map_fst_jsSet_of_get_some _ _ _ _ hw]
  · rw [map_fst_jsSet_of_get_some _ _ _ _ hw]

theorem bulletStep_spec (now : Int) (dt : ℚ) (b : Bullet)
    (players : List (String × Player)) (hpl : PlayersInv players)
    (hbd : b.damage = BULLET_DAMAGE) :
    PlayersInv (bulletStep now dt b players).1 ∧
    ((bulletStep now dt b players).1).map Prod.fst = players.map Prod.fst ∧
    (∀ b', (bulletStep now dt b players).2 = some b' →
      b'.damage = BULLET_DAMAGE) := by
  unfold bulletStep
  split
  · exact ⟨hpl, rfl, fun b' hb' => by simp at hb'⟩
  · simp only []
    cases hf : findHit (moveBullet dt b) players with
    | none =>
      simp only [hf]
      refine ⟨hpl, trivial, fun b' hb' => ?_⟩
      obtain rfl : moveBullet dt b = b' := by injection hb'
      simpa [moveBullet] using hbd
    | some pidp =>
      obtain ⟨pid, p⟩ := pidp
      simp only [hf]
      obtain ⟨hm, hmatch⟩ := findHit_spec _ _ _ _ hf
      have hinvp := hpl _ hm
      have hmd : (moveBullet dt b).damage = BULLET_DAMAGE := by
        simpa [moveBullet] using hbd
      refine ⟨applyHit_inv now _ pid p players hpl hinvp hmatch.2.1 hmd,
        ?_, fun b' hb' => by simp at hb'⟩
      exact map_fst_applyHit _ _ _ _ _ (List.mem_map_of_mem Prod.fst hm)

theorem processBullets_inv (now : Int) (dt : ℚ) :
    ∀ (bullets : List (String × Bullet)) (players : List (String × Player)),
      PlayersInv players → BulletsInv bullets →
      PlayersInv (processBullets now dt players bullets).1 ∧
      BulletsInv (processBullets now dt players bullets).2 ∧
      (processBullets now dt players bullets).1.map Prod.fst =
        players.map Prod.fst := by
  intro bullets
  induction bullets with
  | nil =>
    intro players hpl _
    exact ⟨hpl, by simp [processBullets, BulletsInv], rfl⟩
  | cons hd tl ih =>
    intro players hpl hbl
    obtain ⟨bid, b⟩ := hd
    have hbd : b.damage = BULLET_DAMAGE := hbl _ (List.mem_cons_self _ _)
    have hbtl : BulletsInv tl := fun kb hkb =>
      hbl _ (List.mem_cons_of_mem _ hkb)
    obtain ⟨hs1, hs2, hs3⟩ := bulletStep_spec now dt b players hpl hbd
    simp only [processBullets]
    cases hstep : bulletStep now dt b players with
    | mk players' ob =>
      rw [hstep] at hs1 hs2 hs3
      cases ob with
      | none =>
        obtain ⟨h1, h2, h3⟩ := ih players' hs1 hbtl
        exact ⟨h1, h2, h3.trans hs2⟩
      | some b' =>
        obtain ⟨h1, h2, h3⟩ := ih players' hs1 hbtl
        refine ⟨h1, ?_, h3.trans hs2⟩
        intro kb hkb
        rcases List.mem_cons.mp hkb with rfl | hkb2
        · exact hs3 b' rfl
        · exact h2 _ hkb2

theorem respawnStep_inv (now : Int) (rands : ℕ → ℚ × ℚ) (pid : String)
    (players : List (String × Player)) (hpl : PlayersInv players) :
    PlayersInv (respawnStep now rands pid players) ∧
    (respawnStep now rands pid players).map Prod.fst =
      players.map Prod.fst := by
  unfold respawnStep
  cases hg : jsGet pid players with
  | none => exact ⟨hpl, rfl⟩
  | some p =>
    simp only []
    split
    · have halive : PlayerInv
          { p with isAlive := true, health := TANK_HEALTH } := by
        simp [PlayerInv, TANK_HEALTH, BULLET_DAMAGE]
      constructor
      · intro kp hkp
        rcases mem_jsSet _ _ _ _ hkp with rfl | hkp2
        · simp [PlayerInv, TANK_HEALTH, BULLET_DAMAGE]
        · rcases mem_jsSet _ _ _ _ hkp2 with rfl | hkp3
          · exact halive
          · exact hpl _ hkp3
      · rw [map_fst_jsSet_of_get_some _ _ _ _ (jsGet_jsSet_self pid _ players),
          map_fst_jsSet_of_get_some _ _ _ _ hg]
    · exact ⟨hpl, rfl⟩

theorem processRespawnsGo_inv (now : Int) (rands : ℕ → ℕ → ℚ × ℚ) :
    ∀ (keys : List String) (k : ℕ) (players : List (String × Player)),
      PlayersInv players →
      PlayersInv (processRespawnsGo now rands k keys players) ∧
      (processRespawnsGo now rands k keys players).map Prod.fst =
        players.map Prod.fst := by
  intro keys
  induction keys with
  | nil => intro k players hpl; exact ⟨hpl, rfl⟩
  | cons pid rest ih =>
    intro k players hpl
    obtain ⟨h1, h2⟩ := respawnStep_inv now (rands k) pid players hpl
    obtain ⟨h3, h4⟩ := ih (k + 1) _ h1
    exact ⟨h3, h4.trans h2⟩

theorem stateInv_step (s s' : GameState) (hs : StateInv s) (h : Step s s') :
    StateInv s' := by
  obtain ⟨hpl, hbl, hnd⟩ := hs
  cases h with
  | connect sid rands s =>
    simp only [connectionHandler, addPlayer]
    refine ⟨?_, hbl, nodup_map_fst_jsSet _ _ _ hnd⟩
    intro kp hkp
    rcases mem_jsSet _ _ _ _ hkp with rfl | hkp2
    · simp [PlayerInv, TANK_HEALTH, BULLET_DAMAGE]
    · exact hpl _ hkp2
  | move sid data s =>
    unfold handlePlayerMoved
    cases hg : jsGet sid s.players with
    | none => exact ⟨hpl, hbl, hnd⟩
    | some player =>
      simp only []
      split
      · refine ⟨?_, hbl, ?_⟩
        · intro kp hkp
          rcases mem_jsSet _ _ _ _ hkp with rfl | hkp2
          · have := hpl _ (jsGet_mem _ _ _ hg)
            simpa [PlayerInv] using this
          · exact hpl _ hkp2
        · simpa [map_fst_jsSet_of_get_some _ _ _ _ hg] using hnd
      · exact ⟨hpl, hbl, hnd⟩
  | shot sid now data s =>
    unfold handlePlayerShot
    cases hg : jsGet sid s.players with
    | none => exact ⟨hpl, hbl, hnd⟩
    | some player =>
      simp only []
      split
      · exact ⟨hpl, hbl, hnd⟩
      · split
        · exact ⟨hpl, hbl, hnd⟩
        · refine ⟨?_, ?_, ?_⟩
          · intro kp hkp
            rcases mem_jsSet _ _ _ _ hkp with rfl | hkp2
            · have := hpl _ (jsGet_mem _ _ _ hg)
              simpa [PlayerInv] using this
            · exact hpl _ hkp2
          · intro kb hkb
            rcases mem_jsSet _ _ _ _ hkb with rfl | hkb2
            · rfl
            · exact hbl _ hkb2
          · simpa [map_fst_jsSet_of_get_some _ _ _ _ hg] using hnd
  | tick now rands s =>
    unfold updateGameState
    simp only []
    obtain ⟨h1, h2, h3⟩ := processBullets_inv now
      (((now - s.lastUpdateTime : Int) : ℚ) / 1000) s.bullets s.players hpl hbl
    obtain ⟨h4, h5⟩ := processRespawnsGo_inv now rands _ 0 _ h1
    exact ⟨h4, h2, by rw [processRespawns] at *; rw [h5, h3]; exact hnd⟩
  | disconnect sid s =>
    refine ⟨?_, hbl, nodup_map_fst_jsDel _ _ hnd⟩
    intro kp hkp
    exact hpl _ (mem_jsDel _ _ _ hkp)

theorem reachable_inv (s : GameState) (h : Reachable s) : StateInv s := by
  induction h with
  | init t0 =>
    exact ⟨by simp [PlayersInv], by simp [BulletsInv], by simp⟩
  | step hr hstep ih => exact stateInv_step _ _ ih hstep

/-! ### Concrete sample states used by witnesses -/

def sampleRands : ℕ → ℚ × ℚ := fun _ => (9 / 10, 9 / 10)

def sampleTickRands : ℕ → ℕ → ℚ × ℚ := fun _ _ => (9 / 10, 9 / 10)

def state0 : GameState := ⟨[], [], 0⟩

def state1 : GameState := (connectionHandler "a" sampleRands state0).1

/-! ### Claim C1 -/

/-- C1: for every player in any reachable canonical state — hence after
every state-machine operation (player creation, `applyMove`, `applyFire`,
`tick`, player removal) — health lies in `[0, TANK_HEALTH]` and the
`isAlive` flag is `false` exactly when health is `0`. -/
theorem c1_health_alive_invariant (s : GameState) (h : Reachable s) :
    ∀ kp ∈ s.players, 0 ≤ kp.2.health ∧ kp.2.health ≤ TANK_HEALTH ∧
      (kp.2.isAlive = false ↔ kp.2.health = 0) := by
  obtain ⟨hpl, -, -⟩ := reachable_inv s h
  intro kp hkp
  obtain ⟨h0, h1, h2, -⟩ := hpl kp hkp
  exact ⟨h0, h1, h2⟩

def playerA : Player := ⟨"a", ⟨80, 1, 80⟩, 0, 0, 100, 0, 0, 0, true⟩

/-- Witness for C1 at the player of the concrete reachable state
`state1`. -/
theorem c1_health_alive_invariant_witness :
    0 ≤ playerA.health ∧ playerA.health ≤ TANK_HEALTH ∧
      (playerA.isAlive = false ↔ playerA.health = 0) :=
  c1_health_alive_invariant state1
    (Reachable.step (Reachable.init 0) (Step.connect "a" sampleRands state0))
    ("a", playerA) (by decide)

/-! ### Claim C2 -/

/-- An inbound action message: `PLAYER_MOVED` or `PLAYER_SHOT`. -/
inductive Call where
  | moveCall (sid : String) (data : MoveData)
  | shotCall (sid : String) (now : Int) (data : ShotData)
deriving Repr

def applyCall : Call → GameState → GameState
  | .moveCall sid data, s => (handlePlayerMoved sid data s).1
  | .shotCall sid now data, s => (handlePlayerShot sid now data s).1

def applyCalls : List Call → GameState → GameState
  | [], s => s
  | c :: rest, s => applyCalls rest (applyCall c s)

/-- The calls covered by C2: a move or fire from an unknown player id,
or a move targeting a player that is not alive. -/
def badCall (s : GameState) : Call → Bool
  | .moveCall sid _ =>
    match jsGet sid s.players with
    | none => true
    | some p => !p.isAlive
  | .shotCall sid _ _ => (jsGet sid s.players).isNone

theorem applyCall_bad (s : GameState) (c : Call)
    (h : badCall s c = true) : applyCall c s = s := by
  cases c with
  | moveCall sid data =>
    show (handlePlayerMoved sid data s).1 = s
    unfold handlePlayerMoved
    cases hg : jsGet sid s.players with
    | none => rfl
    | some p =>
      have hal : p.isAlive = false := by
        simpa [badCall, hg] using h
      simp [hal]
  | shotCall sid now data =>
    show (handlePlayerShot sid now data s).1 = s
    unfold handlePlayerShot
    cases hg : jsGet sid s.players with
    | none => rfl
    | some p => simp [badCall, hg] at h

/-- C2: any sequence of `PLAYER_MOVED`/`PLAYER_SHOT` messages whose
sender id is unknown (or, for moves, whose player is not alive) throws
no error — the handlers are total functions — and leaves the canonical
state (players, bullets, scores) exactly unchanged. -/
theorem c2_bad_calls_noop (s : GameState) (calls : List Call)
    (h : ∀ c ∈ calls, badCall s c = true) : applyCalls calls s = s := by
  induction calls with
  | nil => rfl
  | cons c rest ih =>
    have h1 := applyCall_bad s c (h c (List.mem_cons_self _ _))
    simp only [applyCalls, h1]
    exact ih fun c' hc' => h c' (List.mem_cons_of_mem _ hc')

def sampleShot : ShotData := ⟨⟨0, 0, 0⟩, ⟨1, 0, 0⟩, none⟩

def sampleMove : MoveData := ⟨⟨3, 1, 4⟩, 0, 0, none⟩

/-- Witness for C2: two bad calls (unknown id `"x"`) against the
single-player state `state1` leave it unchanged. -/
theorem c2_bad_calls_noop_witness :
    applyCalls [Call.moveCall "x" sampleMove,
      Call.shotCall "x" 77 sampleShot] state1 = state1 :=
  c2_bad_calls_noop state1 _ (by decide)

/-! ### Claim C4 -/

theorem handlePlayerShot_players_of_success (k : String) (t : Int)
    (d : ShotData) (s : GameState) (p : Player)
    (hg : jsGet k s.players = some p) (hal : p.isAlive = true)
    (hncool : ¬(t - p.lastShotTime < RELOAD_TIME)) :
    (handlePlayerShot k t d s).1.players =
      jsSet k { p with lastShotTime := t } s.players := by
  unfold handlePlayerShot
  rw [hg]
  simp [hal, hncool]

theorem handlePlayerShot_noop_of_cooldown (k : String) (t' : Int)
    (d' : ShotData) (s₁ : GameState) (p' : Player)
    (hg : jsGet k s₁.players = some p') (hal : p'.isAlive = true)
    (hc : t' - p'.lastShotTime < RELOAD_TIME) :
    handlePlayerShot k t' d' s₁ = (s₁, []) := by
  unfold handlePlayerShot
  rw [hg]
  simp [hal, hc]

/-- C4: after a fire from player `k` succeeds at time `t` (the player is
alive and its reload window has elapsed, so `lastShotTime` is stamped to
`t`), any `PLAYER_SHOT` from `k` at a time `t'` with `t' - t` below the
reload cooldown is a complete no-op on the resulting state: no new
bullet is created and the player's last-fire timestamp stays `t`. -/
theorem c4_reload_cooldown (s : GameState) (k : String) (p : Player)
    (t : Int) (d : ShotData) (hg : jsGet k s.players = some p)
    (hal : p.isAlive = true) (hcool : RELOAD_TIME ≤ t - p.lastShotTime) :
    ∀ (t' : Int) (d' : ShotData), t' - t < RELOAD_TIME →
      handlePlayerShot k t' d' (handlePlayerShot k t d s).1 =
        ((handlePlayerShot k t d s).1, []) := by
  intro t' d' hlt
  have hncool : ¬(t - p.lastShotTime < RELOAD_TIME) := not_lt.mpr hcool
  have hget : jsGet k (handlePlayerShot k t d s).1.players =
      some { p with lastShotTime := t } := by
    rw [handlePlayerShot_players_of_success k t d s p hg hal hncool]
    exact jsGet_jsSet_self _ _ _
  exact handlePlayerShot_noop_of_cooldown k t' d' _ _ hget hal hlt

/-- Witness for C4 at the concrete state `state1`. -/
theorem c4_reload_cooldown_witness :
    handlePlayerShot "a" 2500 sampleShot
        ((handlePlayerShot "a" 2000 sampleShot state1).1) =
      ((handlePlayerShot "a" 2000 sampleShot state1).1, []) :=
  c4_reload_cooldown state1 "a"
    { id := "a", position := ⟨80, 1, 80⟩, rotationY := 0,
      turretRotationY := 0, health := 100, score := 0, lastShotTime := 0,
      respawnTime := 0, isAlive := true }
    2000 sampleShot (by decide) (by decide) (by decide) 2500 sampleShot
    (by decide)

/-! ### Claim C5 -/

theorem jsGet_eq_of_mem_nodup (l : List (String × α)) (k : String) (v : α)
    (hnd : (l.map Prod.fst).Nodup) (hm : (k, v) ∈ l) :
    jsGet k l = some v := by
  induction l with
  | nil => simp at hm
  | cons hd tl ih =>
    obtain ⟨k', v'⟩ := hd
    rcases List.mem_cons.mp hm with heq | hm2
    · obtain ⟨h1, h2⟩ := Prod.ext_iff.mp heq
      subst h1
      subst h2
      simp [jsGet]
    · have hk : k' ≠ k := by
        rintro rfl
        exact (List.nodup_cons.mp (by simpa using hnd)).1
          (List.mem_map_of_mem Prod.fst hm2)
      simp only [jsGet, if_neg hk]
      exact ih (List.nodup_cons.mp (by simpa using hnd)).2 hm2

theorem applyHit_dead (now : Int) (b : Bullet) (pid : String) (hitp : Player)
    (players : List (String × Player)) (k : String) (p : Player)
    (hnd : (players.map Prod.fst).Nodup) (hmem : (pid, hitp) ∈ players)
    (halive : hitp.isAlive = true) (hg : jsGet k players = some p)
    (hdead : p.isAlive = false) :
    ∃ p', jsGet k (applyHit now b pid hitp players) = some p' ∧
      p'.isAlive = false ∧ p'.respawnTime = p.respawnTime ∧
      p'.health = p.health := by
  have hkne : k ≠ pid := by
    rintro rfl
    have h1 := jsGet_eq_of_mem_nodup players k hitp hnd hmem
    rw [hg] at h1
    have h2 : p = hitp := by injection h1
    rw [h2, halive] at hdead
    exact absurd hdead (by simp)
  unfold applyHit
  simp only []
  split
  · split
    next shooter hgs =>
      by_cases hkb : k = b.playerId
      · rw [← hkb] at hgs
        rw [jsGet_jsSet_ne k pid hkne, hg] at hgs
        have h3 : shooter = p := by injection hgs with h; exact h.symm
        subst h3
        rw [← hkb]
        exact ⟨_, jsGet_jsSet_self _ _ _, hdead, rfl, rfl⟩
      · refine ⟨p, ?_, hdead, rfl, rfl⟩
        rw [jsGet_jsSet_ne k b.playerId hkb, jsGet_jsSet_ne k pid hkne]
        exact hg
    next hgs =>
      refine ⟨p, ?_, hdead, rfl, rfl⟩
      rw [jsGet_jsSet_ne k pid hkne]
      exact hg
  · refine ⟨p, ?_, hdead, rfl, rfl⟩
    rw [jsGet_jsSet_ne k pid hkne]
    exact hg

theorem bulletStep_map_fst (now : Int) (dt : ℚ) (b : Bullet)
    (players : List (String × Player)) :
    ((bulletStep now dt b players).1).map Prod.fst =
      players.map Prod.fst := by
  unfold bulletStep
  split
  · rfl
  · simp only []
    cases hf : findHit (moveBullet dt b) players with
    | none => simp only [hf]
    | some pidp =>
      obtain ⟨pid, hitp⟩ := pidp
      simp only [hf]
      exact map_fst_applyHit _ _ _ _ _
        (List.mem_map_of_mem Prod.fst (findHit_spec _ _ _ _ hf).1)

theorem bulletStep_dead (now : Int) (dt : ℚ) (b : Bullet)
    (players : List (String × Player)) (k : String) (p : Player)
    (hnd : (players.map Prod.fst).Nodup) (hg : jsGet k players = some p)
    (hd : p.isAlive = false) :
    ∃ p', jsGet k (bulletStep now dt b players).1 = some p' ∧
      p'.isAlive = false ∧ p'.respawnTime = p.respawnTime ∧
      p'.health = p.health := by
  unfold bulletStep
  split
  · exact ⟨p, hg, hd, rfl, rfl⟩
  · simp only []
    cases hf : findHit (moveBullet dt b) players with
    | none => simp only [hf]; exact ⟨p, hg, hd, rfl, rfl⟩
    | some pidp =>
      obtain ⟨pid, hitp⟩ := pidp
      simp only [hf]
      obtain ⟨hm, hmatch⟩ := findHit_spec _ _ _ _ hf
      exact applyHit_dead now _ pid hitp players k p hnd hm hmatch.2.1 hg hd

theorem processBullets_map_fst (now : Int) (dt : ℚ) :
    ∀ (bullets : List (String × Bullet)) (players : List (String × Player)),
      (processBullets now dt players bullets).1.map Prod.fst =
        players.map Prod.fst := by
  intro bullets
  induction bullets with
  | nil => intro players; rfl
  | cons hd tl ih =>
    intro players
    obtain ⟨bid, b⟩ := hd
    simp only [processBullets]
    have hfst := bulletStep_map_fst now dt b players
    cases hstep : bulletStep now dt b players with
    | mk players' ob =>
      rw [hstep] at hfst
      cases ob with
      | none => exact (ih players').trans hfst
      | some b' => exact (ih players').trans hfst

theorem processBullets_dead (now : Int) (dt : ℚ) :
    ∀ (bullets : List (String × Bullet)) (players : List (String × Player))
      (k : String) (p : Player),
      (players.map Prod.fst).Nodup → jsGet k players = some p →
      p.isAlive = false →
      ∃ p', jsGet k (processBullets now dt players bullets).1 = some p' ∧
        p'.isAlive = false ∧ p'.respawnTime = p.respawnTime ∧
        p'.health = p.health := by
  intro bullets
  induction bullets with
  | nil => intro players k p hnd hg hd; exact ⟨p, hg, hd, rfl, rfl⟩
  | cons hb tl ih =>
    intro players k p hnd hg hd
    obtain ⟨bid, b⟩ := hb
    simp only [processBullets]
    have hfst := bulletStep_map_fst now dt b players
    obtain ⟨q, hq, hq1, hq2, hq3⟩ :=
      bulletStep_dead now dt b players k p hnd hg hd
    cases hstep : bulletStep now dt b players with
    | mk players' ob =>
      rw [hstep] at hfst hq
      have hnd' : (players'.map Prod.fst).Nodup := by rw [hfst]; exact hnd
      cases ob with
      | none =>
        obtain ⟨p', h1, h2, h3, h4⟩ := ih players' k q hnd' hq hq1
        exact ⟨p', h1, h2, h3.trans hq2, h4.trans hq3⟩
      | some b' =>
        obtain ⟨p', h1, h2, h3, h4⟩ := ih players' k q hnd' hq hq1
        exact ⟨p', h1, h2, h3.trans hq2, h4.trans hq3⟩

theorem respawnStep_other (now : Int) (rands : ℕ → ℚ × ℚ) (pid : String)
    (players : List (String × Player)) (k : String) (hne : k ≠ pid) :
    jsGet k (respawnStep now rands pid players) = jsGet k players := by
  unfold respawnStep
  cases hg : jsGet pid players with
  | none => rfl
  | some p =>
    simp only []
    split
    · rw [jsGet_jsSet_ne k pid hne, jsGet_jsSet_ne k pid hne]
    · rfl

theorem respawnStep_self_skip (now : Int) (rands : ℕ → ℚ × ℚ) (pid : String)
    (players : List (String × Player)) (p : Player)
    (hg : jsGet pid players = some p)
    (hskip : ¬(p.isAlive = false ∧ p.respawnTime ≤ now)) :
    respawnStep now rands pid players = players := by
  unfold respawnStep
  rw [hg]
  simp only []
  rw [if_neg hskip]

theorem respawnStep_fire (now : Int) (rands : ℕ → ℚ × ℚ) (pid : String)
    (players : List (String × Player)) (p : Player)
    (hg : jsGet pid players = some p) (hd : p.isAlive = false)
    (hr : p.respawnTime ≤ now) :
    jsGet pid (respawnStep now rands pid players) =
      some { p with
        isAlive := true
        health := TANK_HEALTH
        position := getRandomSpawnPosition rands
          (jsSet pid { p with isAlive := true, health := TANK_HEALTH }
            players) } := by
  unfold respawnStep
  rw [hg]
  simp only []
  rw [if_pos ⟨hd, hr⟩]
  exact jsGet_jsSet_self _ _ _

theorem processRespawnsGo_get (now : Int) (rands : ℕ → ℕ → ℚ × ℚ) :
    ∀ (keys : List String) (i : ℕ) (players : List (String × Player))
      (k : String), k ∉ keys →
      jsGet k (processRespawnsGo now rands i keys players) =
        jsGet k players := by
  intro keys
  induction keys with
  | nil => intro i players k _; rfl
  | cons pid rest ih =>
    intro i players k hk
    have h1 : k ≠ pid := fun h => hk (h ▸ List.mem_cons_self _ _)
    have h2 : k ∉ rest := fun h => hk (List.mem_cons_of_mem _ h)
    simp only [processRespawnsGo]
    rw [ih (i + 1) _ k h2, respawnStep_other now (rands i) pid players k h1]

theorem processRespawnsGo_fires (now : Int) (rands : ℕ → ℕ → ℚ × ℚ) :
    ∀ (keys : List String) (i : ℕ) (players : List (String × Player))
      (k : String) (p : Player), k ∈ keys → keys.Nodup →
      jsGet k players = some p → p.isAlive = false → p.respawnTime ≤ now →
      ∃ (j : ℕ) (plist : List (String × Player)),
        jsGet k (processRespawnsGo now rands i keys players) =
          some { p with
            isAlive := true
            health := TANK_HEALTH
            position := getRandomSpawnPosition (rands j) plist } := by
  intro keys
  induction keys with
  | nil => intro i players k p hk; simp at hk
  | cons pid rest ih =>
    intro i players k p hk hnodup hg hd hr
    simp only [processRespawnsGo]
    by_cases hkp : k = pid
    · subst hkp
      have h1 := respawnStep_fire now (rands i) k players p hg hd hr
      have hnot : k ∉ rest := (List.nodup_cons.mp hnodup).1
      rw [processRespawnsGo_get now rands rest (i + 1) _ k hnot, h1]
      exact ⟨i, _, rfl⟩
    · have hk2 : k ∈ rest := by
        rcases List.mem_cons.mp hk with h | h
        · exact absurd h hkp
        · exact h
      have hg2 : jsGet k (respawnStep now (rands i) pid players) = some p := by
        rw [respawnStep_other now (rands i) pid players k hkp]
        exact hg
      exact ih (i + 1) _ k p hk2 (List.nodup_cons.mp hnodup).2 hg2 hd hr

theorem processRespawnsGo_skips (now : Int) (rands : ℕ → ℕ → ℚ × ℚ) :
    ∀ (keys : List String) (i : ℕ) (players : List (String × Player))
      (k : String) (p : Player), jsGet k players = some p →
      ¬(p.isAlive = false ∧ p.respawnTime ≤ now) →
      jsGet k (processRespawnsGo now rands i keys players) = some p := by
  intro keys
  induction keys with
  | nil => intro i players k p hg _; exact hg
  | cons pid rest ih =>
    intro i players k p hg hskip
    simp only [processRespawnsGo]
    by_cases hkp : k = pid
    · subst hkp
      rw [respawnStep_self_skip now (rands i) k players p hg hskip]
      exact ih (i + 1) players k p hg hskip
    · have hg2 : jsGet k (respawnStep now (rands i) pid players) = some p := by
        rw [respawnStep_other now (rands i) pid players k hkp]
        exact hg
      exact ih (i + 1) _ k p hg2 hskip

/-- C5: a player that is dead with scheduled respawn time `r` in a state
with distinct player keys (true of every reachable state) becomes alive
again with full health and a freshly resolved spawn position on any
`tick` whose time has reached `r`, and stays dead on any `tick` before
`r`. -/
theorem c5_respawn (s : GameState) (now : Int) (rands : ℕ → ℕ → ℚ × ℚ)
    (k : String) (p : Player) (hnd : (s.players.map Prod.fst).Nodup)
    (hg : jsGet k s.players = some p) (hd : p.isAlive = false) :
    (p.respawnTime ≤ now →
      ∃ p', jsGet k (updateGameState now rands s).players = some p' ∧
        p'.isAlive = true ∧ p'.health = TANK_HEALTH ∧
        ∃ (j : ℕ) (plist : List (String × Player)),
          p'.position = getRandomSpawnPosition (rands j) plist) ∧
    (now < p.respawnTime →
      ∃ p', jsGet k (updateGameState now rands s).players = some p' ∧
        p'.isAlive = false) := by
  unfold updateGameState
  simp only []
  set dt : ℚ := ((now - s.lastUpdateTime : Int) : ℚ) / 1000 with hdt
  obtain ⟨q, hq, hq1, hq2, hq3⟩ :=
    processBullets_dead now dt s.bullets s.players k p hnd hg hd
  have hfst := processBullets_map_fst now dt s.bullets s.players
  have hnd' : ((processBullets now dt s.players s.bullets).1.map
      Prod.fst).Nodup := by rw [hfst]; exact hnd
  have hmemk : k ∈ (processBullets now dt s.players s.bullets).1.map
      Prod.fst := List.mem_map_of_mem Prod.fst (jsGet_mem _ _ _ hq)
  constructor
  · intro hr
    obtain ⟨j, plist, hres⟩ := processRespawnsGo_fires now rands
      ((processBullets now dt s.players s.bullets).1.map Prod.fst) 0
      (processBullets now dt s.players s.bullets).1 k q hmemk hnd' hq hq1
      (hq2 ▸ hr)
    exact ⟨_, hres, rfl, rfl, j, plist, rfl⟩
  · intro hr
    have hskip : ¬(q.isAlive = false ∧ q.respawnTime ≤ now) := by
      rw [hq1, hq2]
      exact fun hcon => absurd hcon.2 (not_le.mpr hr)
    exact ⟨q, processRespawnsGo_skips now rands _ 0 _ k q hq hskip, hq1⟩

def deadPlayer : Player :=
  { id := "a", position := ⟨30, 1, 30⟩, rotationY := 0, turretRotationY := 0,
    health := 0, score := 2, lastShotTime := 100, respawnTime := 500,
    isAlive := false }

def stateDead : GameState := ⟨[("a", deadPlayer)], [], 0⟩

/-- Witness for C5 at a concrete state with one dead player due at 500,
ticked at 600. -/
theorem c5_respawn_witness :
    (deadPlayer.respawnTime ≤ 600 →
      ∃ p', jsGet "a" (updateGameState 600 sampleTickRands
          stateDead).players = some p' ∧
        p'.isAlive = true ∧ p'.health = TANK_HEALTH ∧
        ∃ (j : ℕ) (plist : List (String × Player)),
          p'.position = getRandomSpawnPosition (sampleTickRands j) plist) ∧
    (600 < deadPlayer.respawnTime →
      ∃ p', jsGet "a" (updateGameState 600 sampleTickRands
          stateDead).players = some p' ∧ p'.isAlive = false) :=
  c5_respawn stateDead 600 sampleTickRands "a" deadPlayer (by decide)
    (by decide) (by decide)

/-! ### Claim C3 -/

theorem findHit_unique (b : Bullet) :
    ∀ (l : List (String × Player)) (pid : String) (p : Player),
      (pid, p) ∈ l → hitMatch b pid p →
      (∀ kq ∈ l, hitMatch b kq.1 kq.2 → kq = (pid, p)) →
      findHit b l = some (pid, p) := by
  intro l
  induction l with
  | nil => intro pid p hm; simp at hm
  | cons hdd tl ih =>
    intro pid p hm hmatch huniq
    obtain ⟨k', q⟩ := hdd
    by_cases h1 : hitMatch b k' q
    · have h2 := huniq (k', q) (List.mem_cons_self _ _) h1
      simp only [findHit, if_pos h1]
      rw [h2]
    · simp only [findHit, if_neg h1]
      have hm2 : (pid, p) ∈ tl := by
        rcases List.mem_cons.mp hm with heq | h
        · obtain ⟨h2, h3⟩ := Prod.ext_iff.mp heq
          subst h2; subst h3
          exact absurd hmatch h1
        · exact h
      exact ih pid p hm2 hmatch
        (fun kq hkq => huniq kq (List.mem_cons_of_mem _ hkq))

theorem respawnStep_score (now : Int) (rands : ℕ → ℚ × ℚ) (pid k : String)
    (players : List (String × Player)) (q : Player)
    (hq : jsGet k players = some q) :
    ∃ q', jsGet k (respawnStep now rands pid players) = some q' ∧
      q'.score = q.score := by
  by_cases hkp : k = pid
  · subst hkp
    unfold respawnStep
    rw [hq]
    simp only []
    split
    · exact ⟨_, jsGet_jsSet_self _ _ _, rfl⟩
    · exact ⟨q, hq, rfl⟩
  · rw [respawnStep_other now rands pid players k hkp]
    exact ⟨q, hq, rfl⟩

theorem processRespawnsGo_score (now : Int) (rands : ℕ → ℕ → ℚ × ℚ) :
    ∀ (keys : List String) (i : ℕ) (players : List (String × Player))
      (k : String) (q : Player), jsGet k players = some q →
      ∃ q', jsGet k (processRespawnsGo now rands i keys players) = some q' ∧
        q'.score = q.score := by
  intro keys
  induction keys with
  | nil => intro i players k q hq; exact ⟨q, hq, rfl⟩
  | cons pid rest ih =>
    intro i players k q hq
    simp only [processRespawnsGo]
    obtain ⟨q1, hq1, hs1⟩ := respawnStep_score now (rands i) pid k players q hq
    obtain ⟨q2, hq2, hs2⟩ := ih (i + 1) _ k q1 hq1
    exact ⟨q2, hq2, hs2.trans hs1⟩

/-- C3: in a tick at time `now` whose only bullet `b` is unexpired and
lies (at its advanced position) within the hit radius of exactly one
living non-owner player `p`, the tick removes the bullet, decreases that
player's health by exactly the bullet's damage, and increases the
shooter's score by exactly 1 if and only if the hit is lethal.  The
hypothesis `b.damage ≤ p.health` holds in every reachable state, where
health is a positive multiple of the fixed bullet damage for a living
player (see `reachable_inv`). -/
theorem c3_single_hit (s : GameState) (now : Int) (rands : ℕ → ℕ → ℚ × ℚ)
    (dt : ℚ) (bid : String) (b : Bullet) (pid : String) (p : Player)
    (shooter : Player)
    (hdt : dt = ((now - s.lastUpdateTime : Int) : ℚ) / 1000)
    (hb : s.bullets = [(bid, b)])
    (hlife : ¬(BULLET_LIFETIME < now - b.createdAt))
    (hg : jsGet pid s.players = some p)
    (hmatch : hitMatch (moveBullet dt b) pid p)
    (huniq : ∀ kq ∈ s.players,
      hitMatch (moveBullet dt b) kq.1 kq.2 → kq = (pid, p))
    (hgs : jsGet b.playerId s.players = some shooter)
    (hdmg : b.damage ≤ p.health) :
    (updateGameState now rands s).bullets = [] ∧
    (∃ p', jsGet pid (updateGameState now rands s).players = some p' ∧
      p'.health = p.health - b.damage) ∧
    (∃ sh', jsGet b.playerId (updateGameState now rands s).players =
        some sh' ∧
      sh'.score = shooter.score +
        (if p.health - b.damage ≤ 0 then 1 else 0)) := by
  have hne : pid ≠ b.playerId := hmatch.1
  have hfind := findHit_unique (moveBullet dt b) s.players pid p
    (jsGet_mem _ _ _ hg) hmatch huniq
  have hstep : bulletStep now dt b s.players =
      (applyHit now (moveBullet dt b) pid p s.players, none) := by
    unfold bulletStep
    rw [if_neg hlife]
    simp only []
    rw [hfind]
  unfold updateGameState
  simp only []
  rw [← hdt, hb]
  simp only [processBullets, hstep]
  refine ⟨trivial, ?_⟩
  unfold applyHit
  simp only []
  have hdm : (moveBullet dt b).damage = b.damage := rfl
  have hpid : (moveBullet dt b).playerId = b.playerId := rfl
  rw [hdm, hpid]
  by_cases hl : p.health - b.damage ≤ 0
  · -- lethal hit
    rw [if_pos hl]
    have hgs1 : jsGet b.playerId (jsSet pid { p with health := 0, isAlive := false, respawnTime := now + RESPAWN_TIME } s.players) = some shooter := by
      rw [jsGet_jsSet_ne b.playerId pid (Ne.symm hne)]
      exact hgs
    rw [hgs1]
    constructor
    · -- the target
      have hgt : jsGet pid (jsSet b.playerId { shooter with score := shooter.score + 1 } (jsSet pid { p with health := 0, isAlive := false, respawnTime := now + RESPAWN_TIME } s.players)) = some { p with health := 0, isAlive := false, respawnTime := now + RESPAWN_TIME } := by
        rw [jsGet_jsSet_ne pid b.playerId hne]
        exact jsGet_jsSet_self _ _ _
      have hskip : ¬(({ p with health := 0, isAlive := false, respawnTime := now + RESPAWN_TIME } : Player).isAlive = false ∧ ({ p with health := 0, isAlive := false, respawnTime := now + RESPAWN_TIME } : Player).respawnTime ≤ now) := by
        intro hcon
        have h5 := hcon.2
        simp only [RESPAWN_TIME] at h5
        omega
      refine ⟨_, processRespawnsGo_skips now rands _ 0 _ pid _ hgt hskip, ?_⟩
      simp only []
      omega
    · -- the shooter
      have hgsh : jsGet b.playerId (jsSet b.playerId { shooter with score := shooter.score + 1 } (jsSet pid { p with health := 0, isAlive := false, respawnTime := now + RESPAWN_TIME } s.players)) = some { shooter with score := shooter.score + 1 } :=
        jsGet_jsSet_self _ _ _
      obtain ⟨sh', h1, h2⟩ := processRespawnsGo_score now rands _ 0 _
        b.playerId _ hgsh
      refine ⟨sh', h1, ?_⟩
      rw [if_pos hl]
      simpa using h2
  · -- non-lethal hit
    rw [if_neg hl]
    constructor
    · -- the target
      have hgt : jsGet pid (jsSet pid { p with health := p.health - b.damage } s.players) = some { p with health := p.health - b.damage } :=
        jsGet_jsSet_self _ _ _
      have hskip : ¬(({ p with health := p.health - b.damage } : Player).isAlive = false ∧ ({ p with health := p.health - b.damage } : Player).respawnTime ≤ now) := by
        intro hcon
        have h5 := hcon.1
        simp only [] at h5
        rw [hmatch.2.1] at h5
        exact absurd h5 (by simp)
      exact ⟨_, processRespawnsGo_skips now rands _ 0 _ pid _ hgt hskip, rfl⟩
    · -- the shooter: untouched by this bullet, score preserved
      have hgsh : jsGet b.playerId (jsSet pid { p with health := p.health - b.damage } s.players) = some shooter := by
        rw [jsGet_jsSet_ne b.playerId pid (Ne.symm hne)]
        exact hgs
      obtain ⟨sh', h1, h2⟩ := processRespawnsGo_score now rands _ 0 _
        b.playerId _ hgsh
      refine ⟨sh', h1, ?_⟩
      rw [if_neg hl]
      simpa using h2

def c3Shooter : Player :=
  ⟨"a", ⟨50, 1, 50⟩, 0, 0, 100, 0, 0, 0, true⟩

def c3Target : Player :=
  ⟨"b", ⟨1, 1, 1⟩, 0, 0, 20, 0, 0, 0, true⟩

def c3Bullet : Bullet :=
  ⟨"bu", "a", ⟨0, 1, 0⟩, ⟨0, 0, 0⟩, 0, 20⟩

def stateC3 : GameState :=
  ⟨[("a", c3Shooter), ("b", c3Target)], [("bu", c3Bullet)], 0⟩

/-- Witness for C3: a lethal hit on the 20-health target `"b"` by the
stationary bullet of `"a"` in a tick at time 100. -/
theorem c3_single_hit_witness :
    (updateGameState 100 sampleTickRands stateC3).bullets = [] ∧
    (∃ p', jsGet "b" (updateGameState 100 sampleTickRands
        stateC3).players = some p' ∧
      p'.health = c3Target.health - c3Bullet.damage) ∧
    (∃ sh', jsGet c3Bullet.playerId (updateGameState 100 sampleTickRands
        stateC3).players = some sh' ∧
      sh'.score = c3Shooter.score +
        (if c3Target.health - c3Bullet.damage ≤ 0 then 1 else 0)) :=
  c3_single_hit stateC3 100 sampleTickRands
    (((100 - stateC3.lastUpdateTime : Int) : ℚ) / 1000) "bu" c3Bullet "b"
    c3Target c3Shooter rfl rfl (by decide) (by decide) (by decide)
    (by decide) (by decide) (by decide)

/-! ### Claim C6 -/

/-- The map bounds implied by the spawn generator: both horizontal
coordinates lie in `[-mapSize/2, mapSize/2)`. -/
def inMapBounds (v : Vec3) : Prop :=
  -(MAP_SIZE / 2) ≤ v.x ∧ v.x < MAP_SIZE / 2 ∧
    -(MAP_SIZE / 2) ≤ v.z ∧ v.z < MAP_SIZE / 2

instance (v : Vec3) : Decidable (inMapBounds v) := by
  unfold inMapBounds; infer_instance

def cexMove : MoveData := ⟨⟨1000, 1, 1000⟩, 0, 0, none⟩

def stateOut : GameState := (handlePlayerMoved "a" cexMove state1).1

def cexPlayer : Player :=
  ⟨"a", ⟨1000, 1, 1000⟩, 0, 0, 100, 0, 0, 0, true⟩

/-- Counterexample to C6: the state reached by connecting `"a"` and
then applying a `PLAYER_MOVED` with the client-supplied position
`(1000, 1, 1000)` is reachable, yet the player's stored position is far
outside the map bounds — the handler performs no bounds check. -/
theorem c6_counterexample :
    Reachable stateOut ∧ jsGet "a" stateOut.players = some cexPlayer ∧
      ¬inMapBounds cexPlayer.position :=
  ⟨Reachable.step
      (Reachable.step (Reachable.init 0) (Step.connect "a" sampleRands state0))
      (Step.move "a" cexMove state1),
    by decide, by decide⟩

theorem spawnGo_candidate (rands : ℕ → ℚ × ℚ)
    (players : List (String × Player)) :
    ∀ (fuel i : ℕ), ∃ j, spawnGo rands players i fuel =
      candidate (rands j) := by
  intro fuel
  induction fuel with
  | zero => intro i; exact ⟨i, rfl⟩
  | succ n ih =>
    intro i
    simp only [spawnGo]
    split
    · exact ih (i + 1)
    · split
      · exact ⟨i, rfl⟩
      · exact ih (i + 1)

theorem candidate_inMapBounds (r : ℚ × ℚ) (h1 : 0 ≤ r.1) (h2 : r.1 < 1)
    (h3 : 0 ≤ r.2) (h4 : r.2 < 1) : inMapBounds (candidate r) := by
  simp only [inMapBounds, candidate, MAP_SIZE]
  refine ⟨by linarith, by linarith, by linarith, by linarith⟩

/-- C6, amended: spawn-position resolution (every attempt and the
unchecked fallback alike) always yields a position within the map
bounds, given that the random draws lie in `[0, 1)` as `Math.random`
guarantees; but `PLAYER_MOVED` stores the client-supplied position with
no bounds check, so reachable states can hold out-of-bounds players
(see `c6_counterexample`). -/
theorem c6_amended_spawn_in_bounds (rands : ℕ → ℚ × ℚ)
    (players : List (String × Player))
    (h : ∀ i, 0 ≤ (rands i).1 ∧ (rands i).1 < 1 ∧
      0 ≤ (rands i).2 ∧ (rands i).2 < 1) :
    inMapBounds (getRandomSpawnPosition rands players) := by
  unfold getRandomSpawnPosition
  obtain ⟨j, hj⟩ := spawnGo_candidate rands players 10 0
  rw [hj]
  obtain ⟨h1, h2, h3, h4⟩ := h j
  exact candidate_inMapBounds (rands j) h1 h2 h3 h4

/-- Witness for the amended C6 with the constant draw `(1/2, 1/2)`. -/
theorem c6_amended_spawn_in_bounds_witness :
    inMapBounds (getRandomSpawnPosition (fun _ => (1 / 2, 1 / 2)) []) :=
  c6_amended_spawn_in_bounds (fun _ => (1 / 2, 1 / 2)) []
    (fun _ => ⟨by norm_num, by norm_num, by norm_num, by norm_num⟩)

/-! ### Claim C7 -/

/-- The player allocated by `connectionHandler "n"` on the empty state
with the sample random stream. -/
def c7NewPlayer : Player :=
  ⟨"n", ⟨80, 1, 80⟩, 0, 0, 100, 0, 0, 0, true⟩

/-- Counterexample to C7: the `PLAYER_JOINED` event is emitted with
`io.emit`, i.e. scope `all`, which is delivered to the new connection
`"n"` as well — not "to every connection except the new one" as the
claim states.  (Nor does any emitted message tell the new client which
player identity is its own: the handler emits exactly the
all-connections join event and the snapshot, see `c7_amended_connect`;
the `player_id` message the client's `NetworkManager` listens for is
never sent.) -/
theorem c7_counterexample :
    Emit.mk Scope.all (Message.playerJoined c7NewPlayer) ∈
        (connectionHandler "n" sampleRands state0).2 ∧
      Scope.all.deliveredTo "n" = true := by
  decide

/-- C7, amended: on a new connection the server allocates exactly one
new player (appended to the player map), broadcasts `PLAYER_JOINED` to
ALL connections — including the connecting one — and sends the full
current snapshot (which already contains the new player) to the new
connection only.  No dedicated identity message is sent. -/
theorem c7_amended_connect (s : GameState) (sid : String)
    (rands : ℕ → ℚ × ℚ) (h : jsGet sid s.players = none) :
    ∃ p : Player, p.id = sid ∧ p.health = TANK_HEALTH ∧
      p.isAlive = true ∧
      (connectionHandler sid rands s).1.players = s.players ++ [(sid, p)] ∧
      (connectionHandler sid rands s).2 =
        [⟨Scope.all, Message.playerJoined p⟩,
         ⟨Scope.toSocket sid,
          Message.gameStateMsg (s.players ++ [(sid, p)]) s.bullets⟩] := by
  refine ⟨{ id := sid, position := getRandomSpawnPosition rands s.players, rotationY := 0, turretRotationY := 0, health := TANK_HEALTH, score := 0, lastShotTime := 0, respawnTime := 0, isAlive := true }, rfl, rfl, rfl, ?_, ?_⟩
  · unfold connectionHandler addPlayer
    simp only []
    exact jsSet_eq_append sid _ s.players h
  · unfold connectionHandler addPlayer
    simp only []
    rw [jsSet_eq_append sid _ s.players h]

/-- Witness for the amended C7 at the empty state. -/
theorem c7_amended_connect_witness :
    ∃ p : Player, p.id = "n" ∧ p.health = TANK_HEALTH ∧
      p.isAlive = true ∧
      (connectionHandler "n" sampleRands state0).1.players =
        state0.players ++ [("n", p)] ∧
      (connectionHandler "n" sampleRands state0).2 =
        [⟨Scope.all, Message.playerJoined p⟩,
         ⟨Scope.toSocket "n",
          Message.gameStateMsg (state0.players ++ [("n", p)])
            state0.bullets⟩] :=
  c7_amended_connect state0 "n" sampleRands (by decide)

/-! ### Claim C8 -/

/-- C8: both inbound-action handlers attribute the operation to the
sending connection's id.  Payloads that agree on the fields the
handlers read (position/rotations, resp. position/direction) but differ
in any embedded player identity produce identical results, and neither
handler ever mutates the entry of any player other than the sender. -/
theorem c8_sender_attribution (sid : String) (s : GameState)
    (d₁ d₂ : MoveData) (now : Int) (e₁ e₂ : ShotData) :
    (d₁.position = d₂.position → d₁.rotationY = d₂.rotationY →
      d₁.turretRotationY = d₂.turretRotationY →
      handlePlayerMoved sid d₁ s = handlePlayerMoved sid d₂ s) ∧
    (e₁.position = e₂.position → e₁.direction = e₂.direction →
      handlePlayerShot sid now e₁ s = handlePlayerShot sid now e₂ s) ∧
    (∀ q, q ≠ sid → jsGet q (handlePlayerMoved sid d₁ s).1.players =
      jsGet q s.players) ∧
    (∀ q, q ≠ sid → jsGet q (handlePlayerShot sid now e₁ s).1.players =
      jsGet q s.players) := by
  refine ⟨?_, ?_, ?_, ?_⟩
  · obtain ⟨p1, r1, t1, i1⟩ := d₁
    obtain ⟨p2, r2, t2, i2⟩ := d₂
    intro h1 h2 h3
    simp only [] at h1 h2 h3
    subst h1; subst h2; subst h3
    rfl
  · obtain ⟨p1, dr1, i1⟩ := e₁
    obtain ⟨p2, dr2, i2⟩ := e₂
    intro h1 h2
    simp only [] at h1 h2
    subst h1; subst h2
    rfl
  · intro q hq
    unfold handlePlayerMoved
    cases hg : jsGet sid s.players with
    | none => rfl
    | some player =>
      simp only []
      split
      · exact jsGet_jsSet_ne q sid hq _ s.players
      · rfl
  · intro q hq
    unfold handlePlayerShot
    cases hg : jsGet sid s.players with
    | none => rfl
    | some player =>
      simp only []
      split
      · rfl
      · split
        · rfl
        · exact jsGet_jsSet_ne q sid hq _ s.players

/-- Witness for C8 at `state1`, with payloads differing only in an
embedded id. -/
theorem c8_sender_attribution_witness :
    handlePlayerMoved "a" ⟨⟨3, 1, 4⟩, 0, 0, none⟩ state1 =
      handlePlayerMoved "a" ⟨⟨3, 1, 4⟩, 0, 0, some "b"⟩ state1 ∧
    handlePlayerShot "a" 50 ⟨⟨0, 0, 0⟩, ⟨1, 0, 0⟩, none⟩ state1 =
      handlePlayerShot "a" 50 ⟨⟨0, 0, 0⟩, ⟨1, 0, 0⟩, some "b"⟩ state1 ∧
    jsGet "x" (handlePlayerMoved "a" ⟨⟨3, 1, 4⟩, 0, 0, none⟩
      state1).1.players = jsGet "x" state1.players ∧
    jsGet "x" (handlePlayerShot "a" 50 ⟨⟨0, 0, 0⟩, ⟨1, 0, 0⟩, none⟩
      state1).1.players = jsGet "x" state1.players := by
  obtain ⟨h1, h2, h3, h4⟩ := c8_sender_attribution "a" state1
    ⟨⟨3, 1, 4⟩, 0, 0, none⟩ ⟨⟨3, 1, 4⟩, 0, 0, some "b"⟩ 50
    ⟨⟨0, 0, 0⟩, ⟨1, 0, 0⟩, none⟩ ⟨⟨0, 0, 0⟩, ⟨1, 0, 0⟩, some "b"⟩
  exact ⟨h1 rfl rfl rfl, h2 rfl rfl, h3 "x" (by decide),
    h4 "x" (by decide)⟩

/-! ### Claim C9: the client input throttle
(`NetworkManager.sendInput` / `sendMessage` in `src/public/js/camera.js`)
-/

/-- A value that can sit in `this.inputBuffer`.  `emptyArr` is the
constructor's initial `[]` (truthy in JS, so `inputBuffer || inputState`
picks it); `obj i` is a genuine input-state object, its payload
abstracted to an integer. -/
inductive InputVal where
  | emptyArr
  | obj (i : Int)
deriving DecidableEq, Repr

/-- JS `x || y` over the buffer: `null` (`none`) is falsy, an array or
object is truthy. -/
def orElseJS : Option InputVal → InputVal → InputVal
  | none, y => y
  | some x, _ => x

structure NetworkManager where
  connected : Bool
  inputBuffer : Option InputVal
  lastInputTime : Int
  inputThrottleTime : Int
  pendingActions : List (Int × Int)
  clientSequence : Int
  packetLoss : ℚ
deriving DecidableEq, Repr

/-- The wire payload of a throttled `PLAYER_MOVED`:
`{ input, sequence, timestamp }`. -/
structure WireMoveMsg where
  input : InputVal
  sequence : Int
  timestamp : Int
deriving DecidableEq, Repr

/-- The constructor's relevant initial values. -/
def initNetworkManager : NetworkManager :=
  { connected := false, inputBuffer := some .emptyArr, lastInputTime := 0,
    inputThrottleTime := 50, pendingActions := [], clientSequence := 0,
    packetLoss := 0 }

/-- `sendMessage`, reduced to its wire effect: nothing is sent when not
connected or when the debug packet-loss lottery fires (`randDrop` is
the `Math.random()` draw). -/
def sendMessage (randDrop : ℚ) (nm : NetworkManager) (m : WireMoveMsg) :
    Option WireMoveMsg :=
  if nm.connected = false then none
  else if 0 < nm.packetLoss ∧ randDrop < nm.packetLoss then none
  else some m

/-- `sendInput(inputState)` at time `now`: drop when disconnected;
within the throttle window, coalesce into the buffer (latest wins) and
send nothing; otherwise stamp the send time, send the buffered input if
any (`inputBuffer || inputState`), clear the buffer, allocate the next
sequence number and record it in `pendingActions`. -/
def sendInput (now : Int) (randDrop : ℚ) (inputState : Int)
    (nm : NetworkManager) : NetworkManager × Option WireMoveMsg :=
  if nm.connected = false then (nm, none)
  else if now - nm.lastInputTime < nm.inputThrottleTime then
    ({ nm with inputBuffer := some (.obj inputState) }, none)
  else
    let input := orElseJS nm.inputBuffer (.obj inputState)
    let actionId := nm.clientSequence + 1
    let nm' := { nm with
      lastInputTime := now
      inputBuffer := none
      clientSequence := actionId
      pendingActions := nm.pendingActions ++ [(actionId, now)] }
    (nm', sendMessage randDrop nm' ⟨input, actionId, now⟩)

/-- A burst of `sendInput` calls `(time, input)`, collecting the
messages that reach the wire (no packet loss configured). -/
def runCalls : List (Int × Int) → NetworkManager →
    NetworkManager × List WireMoveMsg
  | [], nm => (nm, [])
  | (t, i) :: rest, nm =>
    let r := sendInput t 0 i nm
    let rr := runCalls rest r.1
    (rr.1, r.2.toList ++ rr.2)

/-- The effect of a run of throttled calls on the buffer: latest wins. -/
def coalesce (buf : Option InputVal) : List (Int × Int) → Option InputVal
  | [] => buf
  | (_, i) :: rest => coalesce (some (.obj i)) rest

def nmC9 : NetworkManager :=
  { connected := true, inputBuffer := none, lastInputTime := 0,
    inputThrottleTime := 50, pendingActions := [], clientSequence := 0,
    packetLoss := 0 }

/-- Counterexample to C9: ten `sendInput` calls within one 50 ms
throttle interval produce exactly one wire message — but it carries the
FIRST of the ten input values (the later nine are coalesced into the
buffer and only flushed by a later allowed send), not the most recent
one as the claim states. -/
theorem c9_counterexample :
    (runCalls [(100000, 1), (100001, 2), (100002, 3), (100003, 4),
      (100004, 5), (100005, 6), (100006, 7), (100007, 8), (100008, 9),
      (100009, 10)] nmC9).2 = [⟨InputVal.obj 1, 1, 100000⟩] ∧
    InputVal.obj 1 ≠ InputVal.obj 10 := by
  decide

theorem runCalls_throttled :
    ∀ (l : List (Int × Int)) (nm : NetworkManager),
      nm.connected = true →
      (∀ ti ∈ l, ti.1 - nm.lastInputTime < nm.inputThrottleTime) →
      (runCalls l nm).2 = [] ∧
      (runCalls l nm).1 =
        { nm with inputBuffer := coalesce nm.inputBuffer l } := by
  intro l
  induction l with
  | nil => intro nm hc _; exact ⟨rfl, rfl⟩
  | cons hd tlist ih =>
    intro nm hc hall
    obtain ⟨t, i⟩ := hd
    have hth : t - nm.lastInputTime < nm.inputThrottleTime :=
      hall (t, i) (List.mem_cons_self _ _)
    have hsend : sendInput t 0 i nm =
        ({ nm with inputBuffer := some (.obj i) }, none) := by
      unfold sendInput
      rw [hc]
      simp [hth]
    simp only [runCalls, hsend]
    obtain ⟨h1, h2⟩ := ih { nm with inputBuffer := some (.obj i) } hc
      (fun ti hti => by simpa using hall ti (List.mem_cons_of_mem _ hti))
    exact ⟨by simpa using h1, by rw [h2]; rfl⟩

/-- C9, amended: if the buffer is empty and the first of a burst of
calls falls outside the throttle window while all later ones fall
within it, then exactly one message reaches the wire during the burst
and it carries the FIRST input value; the later inputs are coalesced
latest-wins into the buffer, whose content (rather than the then-current
input) is flushed by the next allowed `sendInput`. -/
theorem c9_amended_throttle (nm : NetworkManager) (t₀ i₀ : Int)
    (rest : List (Int × Int)) (hc : nm.connected = true)
    (hb : nm.inputBuffer = none) (hp : nm.packetLoss = 0)
    (h₀ : ¬(t₀ - nm.lastInputTime < nm.inputThrottleTime))
    (hrest : ∀ ti ∈ rest, ti.1 - t₀ < nm.inputThrottleTime) :
    (runCalls ((t₀, i₀) :: rest) nm).2 =
      [⟨InputVal.obj i₀, nm.clientSequence + 1, t₀⟩] ∧
    (runCalls ((t₀, i₀) :: rest) nm).1.inputBuffer = coalesce none rest ∧
    (∀ (t' i' : Int) (v : InputVal),
      ¬(t' - t₀ < nm.inputThrottleTime) → coalesce none rest = some v →
      (sendInput t' 0 i' (runCalls ((t₀, i₀) :: rest) nm).1).2 =
        some ⟨v, nm.clientSequence + 1 + 1, t'⟩) := by
  have hsend0 : sendInput t₀ 0 i₀ nm =
      ({ nm with
          lastInputTime := t₀
          inputBuffer := none
          clientSequence := nm.clientSequence + 1
          pendingActions := nm.pendingActions ++
            [(nm.clientSequence + 1, t₀)] },
        some ⟨InputVal.obj i₀, nm.clientSequence + 1, t₀⟩) := by
    unfold sendInput
    rw [hc]
    simp only [Bool.true_eq_false, if_false, if_neg h₀, hb, orElseJS]
    simp [sendMessage, hp]
  obtain ⟨h1, h2⟩ := runCalls_throttled rest
    { nm with
      lastInputTime := t₀
      inputBuffer := none
      clientSequence := nm.clientSequence + 1
      pendingActions := nm.pendingActions ++ [(nm.clientSequence + 1, t₀)] }
    hc (fun ti hti => by simpa using hrest ti hti)
  simp only [runCalls, hsend0]
  refine ⟨by simpa using h1, by rw [h2], ?_⟩
  intro t' i' v hth' hcv
  rw [h2]
  unfold sendInput
  rw [hc]
  simp only [Bool.true_eq_false, if_false]
  rw [if_neg (by simpa using hth')]
  simp only [hcv, orElseJS]
  simp [sendMessage, hp]

/-- Witness for the amended C9: the ten-call burst of
`c9_counterexample`, flushed at time 100050. -/
theorem c9_amended_throttle_witness :
    (runCalls ((100000, 1) :: [(100001, 2), (100002, 3), (100003, 4),
      (100004, 5), (100005, 6), (100006, 7), (100007, 8), (100008, 9),
      (100009, 10)]) nmC9).2 =
      [⟨InputVal.obj 1, nmC9.clientSequence + 1, 100000⟩] ∧
    (runCalls ((100000, 1) :: [(100001, 2), (100002, 3), (100003, 4),
      (100004, 5), (100005, 6), (100006, 7), (100007, 8), (100008, 9),
      (100009, 10)]) nmC9).1.inputBuffer =
      coalesce none [(100001, 2), (100002, 3), (100003, 4), (100004, 5),
        (100005, 6), (100006, 7), (100007, 8), (100008, 9),
        (100009, 10)] ∧
    (∀ (t' i' : Int) (v : InputVal),
      ¬(t' - 100000 < nmC9.inputThrottleTime) →
      coalesce none [(100001, 2), (100002, 3), (100003, 4), (100004, 5),
        (100005, 6), (100006, 7), (100007, 8), (100008, 9),
        (100009, 10)] = some v →
      (sendInput t' 0 i' (runCalls ((100000, 1) :: [(100001, 2),
        (100002, 3), (100003, 4), (100004, 5), (100005, 6), (100006, 7),
        (100007, 8), (100008, 9), (100009, 10)]) nmC9).1).2 =
        some ⟨v, nmC9.clientSequence + 1 + 1, t'⟩) :=
  c9_amended_throttle nmC9 100000 1 [(100001, 2), (100002, 3),
    (100003, 4), (100004, 5), (100005, 6), (100006, 7), (100007, 8),
    (100008, 9), (100009, 10)] rfl rfl rfl (by decide) (by decide)

/-! ### Claim C10 -/

theorem processBullets_y (now : Int) (dt : ℚ) :
    ∀ (bullets : List (String × Bullet)) (players : List (String × Player)),
      ∀ kb' ∈ (processBullets now dt players bullets).2,
        ∃ b₀, (kb'.1, b₀) ∈ bullets ∧
          kb'.2.position.y = b₀.position.y := by
  intro bullets
  induction bullets with
  | nil => intro players kb' h; simp [processBullets] at h
  | cons hb tl ih =>
    intro players kb' h
    obtain ⟨bid, b⟩ := hb
    simp only [processBullets] at h
    rcases hstep : bulletStep now dt b players with ⟨players', ob⟩
    rw [hstep] at h
    cases ob with
    | none =>
      obtain ⟨b₀, hmem, hy⟩ := ih players' kb' h
      exact ⟨b₀, List.mem_cons_of_mem _ hmem, hy⟩
    | some b' =>
      have hb' : b'.position.y = b.position.y := by
        unfold bulletStep at hstep
        split at hstep
        · simp at hstep
        · simp only [] at hstep
          cases hf : findHit (moveBullet dt b) players with
          | none =>
            rw [hf] at hstep
            obtain h2 : moveBullet dt b = b' := by
              injection hstep with ha hb2
              injection hb2
            rw [← h2]
            rfl
          | some pidp =>
            obtain ⟨pid, p⟩ := pidp
            rw [hf] at hstep
            simp at hstep
      rcases List.mem_cons.mp h with heq | hmem
      · obtain ⟨h1, h2⟩ := Prod.ext_iff.mp heq
        refine ⟨b, ?_, ?_⟩
        · simp only [] at h1
          rw [h1]
          exact List.mem_cons_self _ _
        · simp only [] at h2
          rw [h2]
          exact hb'
      · obtain ⟨b₀, hmem0, hy⟩ := ih players' kb' hmem
        exact ⟨b₀, List.mem_cons_of_mem _ hmem0, hy⟩

/-- C10: hit detection and the spawn minimum-distance check compare
squared distances on the x/z coordinates only, bullet advance never
touches the y coordinate, and consequently vertical separation has no
effect: changing the y coordinates of a bullet and of a player changes
neither the collision test nor the spawn distance test, and every
bullet surviving a tick keeps the y coordinate it was created with. -/
theorem c10_vertical_irrelevant :
    (∀ (dt : ℚ) (b : Bullet),
      (moveBullet dt b).position.y = b.position.y) ∧
    (∀ (b : Bullet) (pid : String) (p : Player) (y₁ y₂ : ℚ),
      hitMatch { b with position := { b.position with y := y₁ } } pid
          { p with position := { p.position with y := y₂ } } ↔
        hitMatch b pid p) ∧
    (∀ (pos : Vec3) (y : ℚ) (players : List (String × Player)),
      isFarEnough { pos with y := y } players ↔ isFarEnough pos players) ∧
    (∀ (now : Int) (rands : ℕ → ℕ → ℚ × ℚ) (s : GameState),
      ∀ kb' ∈ (updateGameState now rands s).bullets,
        ∃ b₀, (kb'.1, b₀) ∈ s.bullets ∧
          kb'.2.position.y = b₀.position.y) := by
  refine ⟨fun dt b => rfl, fun b pid p y₁ y₂ => Iff.rfl,
    fun pos y players => Iff.rfl, fun now rands s kb' h => ?_⟩
  exact processBullets_y now _ s.bullets s.players kb' h

def c10Bullet : Bullet := ⟨"bu", "a", ⟨0, 1, 0⟩, ⟨1, 0, 0⟩, 0, 20⟩

def stateC10 : GameState := ⟨[("a", c3Shooter)], [("bu", c10Bullet)], 0⟩

/-- Witness for C10, with the tick conjunct instantiated at a state
whose lone bullet survives the tick at time 100. -/
theorem c10_vertical_irrelevant_witness :
    (moveBullet 1 c3Bullet).position.y = c3Bullet.position.y ∧
    (hitMatch { c3Bullet with
        position := { c3Bullet.position with y := 7 } } "b"
        { c3Target with
          position := { c3Target.position with y := -3 } } ↔
      hitMatch c3Bullet "b" c3Target) ∧
    (isFarEnough { x := 3, y := 9, z := 4 } state1.players ↔
      isFarEnough { x := 3, y := 1, z := 4 } state1.players) ∧
    (∃ b₀, ("bu", b₀) ∈ stateC10.bullets ∧
      (⟨"bu", "a", ⟨2, 1, 0⟩, ⟨1, 0, 0⟩, 0, 20⟩ :
        Bullet).position.y = b₀.position.y) := by
  obtain ⟨h1, h2, h3, h4⟩ := c10_vertical_irrelevant
  exact ⟨h1 1 c3Bullet, h2 c3Bullet "b" c3Target 7 (-3),
    h3 ⟨3, 1, 4⟩ 9 state1.players,
    h4 100 sampleTickRands stateC10
      ("bu", ⟨"bu", "a", ⟨2, 1, 0⟩, ⟨1, 0, 0⟩, 0, 20⟩) (by decide)⟩

end TankGame
